import Mathlib

/-!
# DocScanPro — formal model of the document processing pipeline

Shallow embedding of the OCR orchestration queue, the recognition
provider, the geometry/transform helpers and the PDF assembly engine of
the DocScanPro repository, together with proofs and refutations of the
frozen claims about them.

Real-number arithmetic of the source (JS `number` / Swift `CGFloat`) is
modelled by exact rationals; where IEEE-754 special values (NaN,
Infinity) are themselves the subject of a claim, an explicit float-like
carrier `JF` with JavaScript division/multiplication semantics is used.
External collaborators (file system, image loading, native OCR engines)
are passed in as explicit environments.
-/

namespace DocScanPro

/-! ## Data model (src/types.ts) -/

inductive Filter
  | color
  | grayscale
  | bw
deriving DecidableEq, Repr

inductive OcrStatus
  | idle
  | running
  | done
  | error
deriving DecidableEq, Repr

inductive ExportQuality
  | colorHigh
  | colorMedium
  | grayscale
deriving DecidableEq, Repr

/-- A pixel- or point-space rectangle `{x, y, width, height}`. -/
structure Rect where
  x : ℚ
  y : ℚ
  width : ℚ
  height : ℚ
deriving DecidableEq, Repr

/-- `OcrWord` of src/types.ts: text, pixel box, confidence, and the
dimensions of the image the box was computed against. -/
structure OcrWord where
  text : String
  box : Rect
  conf : Option ℚ
  imgW : ℚ
  imgH : ℚ
deriving DecidableEq, Repr

/-- `OcrPage` of src/types.ts. -/
structure OcrPage where
  fullText : String
  words : List OcrWord
  imgW : ℚ
  imgH : ℚ
deriving DecidableEq, Repr

structure OcrProgress where
  processed : Nat
  total : Nat
deriving DecidableEq, Repr

/-- `Page` of src/types.ts.  Optional fields are `Option`s. -/
structure Page where
  id : String
  uri : String
  rotation : Option Nat
  filter : Filter
  autoContrast : Option Bool
  width : Option ℚ
  height : Option ℚ
  ocrText : Option String
  ocrBoxes : Option (List OcrWord)
  processedUri : Option String
deriving DecidableEq, Repr

/-- `Doc` of src/types.ts (fields relevant to the pipeline). -/
structure Doc where
  id : String
  title : String
  pages : List Page
  ocr : List String
  ocrStatus : Option OcrStatus
  ocrProgress : Option OcrProgress
  ocrExcerpt : Option String
  originalPdfPath : Option String
  exportQuality : Option ExportQuality
deriving DecidableEq, Repr

/-! ## Geometry: the box-to-PDF transform (src/pdf.ts, `imageRectToPdfRect`) -/

/-- Result of the box-to-PDF transform: draw position, font size and
baseline correction. -/
structure PdfTextPlacement where
  x : ℚ
  y : ℚ
  size : ℚ
  baselineAdjust : ℚ
deriving DecidableEq, Repr

/-- `imageRectToPdfRect` from src/pdf.ts (pdf-lib builder): maps a pixel
box against an `ocrImageW x ocrImageH` raster into `drawRect`,
independently scaling X and Y, flipping the Y axis, and computing a font
size (90% of the scaled box height, at least 6pt) and a baseline
correction of 20% of the font size. -/
def imageRectToPdfRect (box : Rect) (ocrImageW ocrImageH : ℚ) (drawRect : Rect) :
    PdfTextPlacement :=
  let scaleX := drawRect.width / ocrImageW
  let scaleY := drawRect.height / ocrImageH
  let x := drawRect.x + box.x * scaleX
  let y := drawRect.y + (drawRect.height - (box.y + box.height) * scaleY)
  let size := max (box.height * scaleY * (9 / 10)) 6
  let baselineAdjust := size * (1 / 5)
  ⟨x, y, size, baselineAdjust⟩

/-- One invisible text draw call produced by a PDF builder. -/
structure DrawnText where
  text : String
  x : ℚ
  y : ℚ
  size : ℚ
  opacity : ℚ
deriving DecidableEq, Repr

/-- `drawInvisibleTextLayer` from src/pdf.ts (pdf-lib builder): draws each
non-blank word at the transformed position plus the baseline correction,
at opacity 0.001. -/
def drawInvisibleTextLayer (ocrWords : List OcrWord)
    (imageW imageH : ℚ) (drawRect : Rect) : List DrawnText :=
  (ocrWords.filter (fun w => !(w.text.trim.isEmpty))).map (fun w =>
    let p := imageRectToPdfRect w.box imageW imageH drawRect
    ⟨w.text, p.x, p.y + p.baselineAdjust, p.size, 1 / 1000⟩)

/-- The word placement computed by the native Swift builder
(ios NativePDFBuilder.build, word loop): scale factors from the page
rect and the page's `imgW`/`imgH`, top-left to bottom-left Y flip, font
size 90% of the scaled box height with a 6pt floor.  Returns
`(xPdf, yPdf, fontSize)`. -/
def swiftWordPlacement (pageRect : Rect) (imgW imgH : ℚ)
    (bx b_y bw bh : ℚ) : ℚ × ℚ × ℚ :=
  let scaleX := pageRect.width / imgW
  let scaleY := pageRect.height / imgH
  let xPdf := pageRect.x + bx * scaleX
  let yTopImage := imgH - (b_y + bh)
  let yPdf := pageRect.y + yTopImage * scaleY
  let fontSize := max (bh * scaleY * (9 / 10)) 6
  (xPdf, yPdf, fontSize)

/-! ## JavaScript float semantics for zero-guard claims

A carrier with the IEEE-754 special values produced by JavaScript
`number` (and Swift `CGFloat`) arithmetic on exact inputs.  Only the
operations used by `getContainRect` and the native overlay scale are
modelled; negative zero is identified with zero. -/

inductive JF
  | q (x : ℚ)
  | inf
  | ninf
  | nan
deriving DecidableEq, Repr

namespace JF

/-- JavaScript division, including `x / 0 = ±Infinity` and `0 / 0 = NaN`. -/
def jdiv : JF → JF → JF
  | q a, q b =>
      if b = 0 then
        if a = 0 then nan else if 0 < a then inf else ninf
      else q (a / b)
  | q _, inf => q 0
  | q _, ninf => q 0
  | inf, q b => if 0 ≤ b then inf else ninf
  | ninf, q b => if 0 ≤ b then ninf else inf
  | inf, inf => nan
  | inf, ninf => nan
  | ninf, inf => nan
  | ninf, ninf => nan
  | nan, _ => nan
  | _, nan => nan

/-- JavaScript multiplication, including `0 * Infinity = NaN`. -/
def jmul : JF → JF → JF
  | q a, q b => q (a * b)
  | q a, inf => if a = 0 then nan else if 0 < a then inf else ninf
  | q a, ninf => if a = 0 then nan else if 0 < a then ninf else inf
  | inf, q b => if b = 0 then nan else if 0 < b then inf else ninf
  | ninf, q b => if b = 0 then nan else if 0 < b then ninf else inf
  | inf, inf => inf
  | inf, ninf => ninf
  | ninf, inf => ninf
  | ninf, ninf => inf
  | nan, _ => nan
  | _, nan => nan

/-- JavaScript subtraction, including `Infinity - Infinity = NaN`. -/
def jsub : JF → JF → JF
  | q a, q b => q (a - b)
  | q _, inf => ninf
  | q _, ninf => inf
  | inf, q _ => inf
  | ninf, q _ => ninf
  | inf, inf => nan
  | inf, ninf => inf
  | ninf, inf => ninf
  | ninf, ninf => nan
  | nan, _ => nan
  | _, nan => nan

/-- `Math.min`: NaN if either argument is NaN, otherwise the smaller. -/
def jmin : JF → JF → JF
  | q a, q b => q (min a b)
  | q a, inf => q a
  | inf, q b => q b
  | q _, ninf => ninf
  | ninf, q _ => ninf
  | inf, inf => inf
  | inf, ninf => ninf
  | ninf, inf => ninf
  | ninf, ninf => ninf
  | nan, _ => nan
  | _, nan => nan

/-- A value that is an ordinary (finite) number. -/
def isFinite : JF → Prop
  | q _ => True
  | _ => False

instance : DecidablePred isFinite := fun f => by
  cases f <;> simp [isFinite] <;> infer_instance

end JF

/-- A rectangle over the JavaScript float carrier. -/
structure JRect where
  x : JF
  y : JF
  width : JF
  height : JF
deriving DecidableEq, Repr

/-- `getContainRect` from src/utils/geometry.ts, over JavaScript float
semantics: `scale = Math.min(boxW / imgW, boxH / imgH)`, scaled size,
and centering offsets.  The source performs no zero guard. -/
def getContainRect (imgW imgH boxW boxH : JF) : JRect :=
  let scale := JF.jmin (JF.jdiv boxW imgW) (JF.jdiv boxH imgH)
  let width := JF.jmul imgW scale
  let height := JF.jmul imgH scale
  let x := JF.jdiv (JF.jsub boxW width) (JF.q 2)
  let y := JF.jdiv (JF.jsub boxH height) (JF.q 2)
  ⟨x, y, width, height⟩

/-- The per-page overlay scale factor of the native builder
(ios NativePDFBuilder.build line `let scaleX = pageRect.width / CGFloat(imgW)`),
over float semantics; unguarded division. -/
def nativeOverlayScaleX (pageRectWidth imgW : JF) : JF :=
  JF.jdiv pageRectWidth imgW

/-! ## PDF assembly (src/pdf.ts, src/native/nativePDFBuilder.ts, ios NativePDFBuilder.swift) -/

/-- External collaborators of the export pipeline: file existence and the
ImageFilters native module. -/
structure FsEnv where
  fileExists : String → Bool
  imageFiltersAvailable : Bool
  processImage : String → Filter → Nat → Bool → Except String String

/-- `hasVisualEdits` from src/pdf.ts: true when some page has a non-zero
rotation, a non-default (non-color) filter, or auto-contrast enabled;
false for an empty page list. -/
def pageHasVisualEdit (p : Page) : Bool :=
  (p.rotation.getD 0 != 0) || (p.filter != Filter.color) || (p.autoContrast == some true)

def hasVisualEdits (doc : Doc) : Bool :=
  if doc.pages.isEmpty then false
  else doc.pages.any pageHasVisualEdit

/-- `getProcessedUriForExport` from src/pdf.ts: prefer `processedUri`;
otherwise process on the fly through ImageFilters, falling back to the
raw `uri` when the module is unavailable or processing fails. -/
def getProcessedUriForExport (env : FsEnv) (page : Page) : String :=
  match page.processedUri with
  | some u => u
  | none =>
    if !env.imageFiltersAvailable then page.uri
    else
      match env.processImage page.uri page.filter (page.rotation.getD 0)
          (page.autoContrast.getD false) with
      | .ok result => result
      | .error _ => page.uri

/-- `Math.round` (round half towards positive infinity). -/
def jsRound (x : ℚ) : Int := ⌊x + 1 / 2⌋

/-- One entry of the page payload handed to the native builder. -/
structure NativeWord where
  text : String
  x : Int
  y : Int
  width : Int
  height : Int
  conf : Option ℚ
deriving DecidableEq, Repr

structure NativePage where
  imagePath : String
  imgW : Int
  imgH : Int
  ocrWords : List NativeWord
deriving DecidableEq, Repr

/-- `stripFileScheme` (src/utils/paths.ts): remove a leading `file://`
scheme from a uri (the scheme only ever occurs as a prefix). -/
def stripFileScheme (uri : String) : String :=
  if uri.toList.take 7 = "file://".toList then String.mk (uri.toList.drop 7) else uri

/-- A `.map` whose body can throw: the first failure aborts the whole
map, as a JavaScript exception inside `Array.prototype.map` does. -/
def mapExcept (g : α → Except ε β) : List α → Except ε (List β)
  | [] => .ok []
  | a :: as =>
    match g a with
    | .error e => .error e
    | .ok b =>
      match mapExcept g as with
      | .error e => .error e
      | .ok bs => .ok (b :: bs)

/-- The payload computation of `buildPdfNative`
(src/native/nativePDFBuilder.ts): fails on an empty page list or a page
without a uri; per page takes `ocrBoxes` (or `[]`), image dimensions
from the first word (falling back to page metadata, then 0), rounds all
box coordinates to integers, and strips the file scheme. -/
def buildPdfNativePayload (doc : Doc) : Except String (List NativePage) :=
  if doc.pages.isEmpty then .error "Document has no pages"
  else
    mapExcept (fun page =>
      if page.uri = "" then .error "Page missing uri"
      else
        let ocrWords := page.ocrBoxes.getD []
        let imgW := match ocrWords with
          | w :: _ => jsRound w.imgW
          | [] => jsRound (page.width.getD 0)
        let imgH := match ocrWords with
          | w :: _ => jsRound w.imgH
          | [] => jsRound (page.height.getD 0)
        let transformed := ocrWords.map (fun w =>
          NativeWord.mk w.text (jsRound w.box.x) (jsRound w.box.y)
            (jsRound w.box.width) (jsRound w.box.height) w.conf)
        .ok ⟨stripFileScheme page.uri, imgW, imgH, transformed⟩)
      doc.pages

/-- One page of the PDF produced by the native builder: the page bounds,
the rect the page image was drawn into, and the invisible overlay draw
calls. -/
structure RenderedPage where
  pageRect : Rect
  imageRect : Rect
  overlay : List DrawnText
deriving DecidableEq, Repr

/-- The native Swift builder (ios NativePDFBuilder.build): rejects an
empty page list or an unloadable first image; uses the first image's
size as the page size for the whole document; skips pages whose image
fails to load; draws each page image into the full page rect and each
OCR word at the flipped, scaled position with font size
`max(bh * scaleY * 0.9, 6)` and alpha 0.01.  `loadImage` returns the
natural pixel size of the image at a path, if loadable. -/
def swiftBuild (loadImage : String → Option (ℚ × ℚ)) (pages : List NativePage) :
    Except String (List RenderedPage) :=
  match pages with
  | [] => .error "EMPTY_PAGES"
  | first :: _ =>
    match loadImage first.imagePath with
    | none => .error "IMAGE_LOAD_FAILED"
    | some (pw, ph) =>
      .ok (pages.filterMap (fun p =>
        match loadImage p.imagePath with
        | none => none
        | some _ =>
          let pageRect : Rect := ⟨0, 0, pw, ph⟩
          let scaleX := pageRect.width / (p.imgW : ℚ)
          let scaleY := pageRect.height / (p.imgH : ℚ)
          let overlay := p.ocrWords.map (fun w =>
            let bx : ℚ := w.x
            let b_y : ℚ := w.y
            let bh : ℚ := w.height
            let xPdf := pageRect.x + bx * scaleX
            let yTopImage := (p.imgH : ℚ) - (b_y + bh)
            let yPdf := pageRect.y + yTopImage * scaleY
            let fontSize := max (bh * scaleY * (9 / 10)) 6
            DrawnText.mk w.text xPdf yPdf fontSize (1 / 100))
          some ⟨pageRect, pageRect, overlay⟩))

/-- Result of `buildPdfFromImages`: either the untouched original
imported PDF, a rebuilt PDF, or a native-builder failure. -/
inductive ExportResult
  | originalPdf (uri : String)
  | rebuilt (rendered : List RenderedPage)
  | failed (e : String)
deriving DecidableEq, Repr

/-- The rebuild branch of `buildPdfFromImages` (src/pdf.ts): resolve each
page's final image uri through `getProcessedUriForExport`, then hand the
document to the native builder. -/
def docWithProcessedPages (env : FsEnv) (doc : Doc) : Doc :=
  { doc with pages := doc.pages.map (fun p =>
      { p with uri := getProcessedUriForExport env p }) }

def rebuildFromImages (env : FsEnv) (loadImage : String → Option (ℚ × ℚ))
    (doc : Doc) : ExportResult :=
  match buildPdfNativePayload (docWithProcessedPages env doc) with
  | .error e => .failed e
  | .ok payload =>
    match swiftBuild loadImage payload with
    | .error e => .failed e
    | .ok rendered => .rebuilt rendered

/-- `buildPdfFromImages` from src/pdf.ts: if the document preserves an
original imported PDF and has no visual edits, return that file when it
exists on disk; otherwise (including when the file is missing) rebuild
from images via the native pipeline. -/
def buildPdfFromImages (env : FsEnv) (loadImage : String → Option (ℚ × ℚ))
    (doc : Doc) : ExportResult :=
  match doc.originalPdfPath with
  | some path =>
    if !hasVisualEdits doc then
      if env.fileExists path then .originalPdf ("file://" ++ path)
      else rebuildFromImages env loadImage doc
    else rebuildFromImages env loadImage doc
  | none => rebuildFromImages env loadImage doc

/-- `hasOcrData` condition of the legacy pdf-lib builder (src/pdf.ts,
pdf-lib version): overlay only when OCR status is done and some page has
non-empty boxes. -/
def hasOcrData (doc : Doc) : Bool :=
  (doc.ocrStatus == some OcrStatus.done) &&
    doc.pages.any (fun p => !(p.ocrBoxes.getD []).isEmpty)

/-- Whether the legacy pdf-lib builder draws an overlay on a given page
(assuming the font embeds): the document-level `hasOcrData` gate and a
non-empty per-page box list. -/
def pdfLibPageOverlaid (doc : Doc) (page : Page) : Bool :=
  hasOcrData doc && !(page.ocrBoxes.getD []).isEmpty

/-! ## OCR recognition provider (src/ocr/provider.ts) -/

/-- `OCR_TIMEOUT_MS` from src/ocr/provider.ts. -/
def OCR_TIMEOUT_MS : Nat := 30000

/-- Raw result of the VisionOCR native call. -/
structure VisionWord where
  text : String
  x : ℚ
  y : ℚ
  width : ℚ
  height : ℚ
  conf : Option ℚ
deriving DecidableEq, Repr

structure VisionResult where
  imgW : ℚ
  imgH : ℚ
  words : List VisionWord
deriving DecidableEq, Repr

/-- Environment for one `recognizePage` call: the outcome and duration of
each external engine call and of `Image.getSize`. -/
structure ProviderEnv where
  visionAvailable : Bool
  visionOutcome : Except String VisionResult
  visionMs : Nat
  imageSize : Except String (ℚ × ℚ)
  textRecWithScheme : Except String (List String)
  textRecPlain : Except String (List String)
  textRecMs : Nat
deriving Repr

/-- `withTimeout` from src/ocr/provider.ts: a promise that has not
settled by `timeoutMs` loses the race against the timeout rejection. -/
def withTimeout (outcome : Except String α) (ms timeoutMs : Nat) : Except String α :=
  if timeoutMs ≤ ms then .error ("OCR timeout after " ++ toString timeoutMs ++ "ms")
  else outcome

/-- The two-attempt `recognizePromise` inside the TextRecognition
fallback: retry with the plain path when the first attempt rejects or
yields no lines. -/
def recognizePromise (ws pl : Except String (List String)) : Except String (List String) :=
  match ws with
  | .ok lines => if lines.isEmpty then pl else .ok lines
  | .error _ => pl

/-- The body of `recognizePage` up to (but not including) the outer
catch: VisionOCR under timeout when available, else the TextRecognition
fallback (which first awaits the image size), which returns text with an
empty word list. -/
def recognizePageTry (env : ProviderEnv) : Except String OcrPage :=
  let fallback : Except String OcrPage :=
    match env.imageSize with
    | .error e => .error e
    | .ok (w, h) =>
      match withTimeout (recognizePromise env.textRecWithScheme env.textRecPlain)
          env.textRecMs OCR_TIMEOUT_MS with
      | .error e => .error e
      | .ok lines => .ok ⟨String.intercalate "\n" lines, [], w, h⟩
  if env.visionAvailable then
    match withTimeout env.visionOutcome env.visionMs OCR_TIMEOUT_MS with
    | .ok res =>
      let words : List OcrWord := res.words.map (fun w =>
        ⟨w.text, ⟨w.x, w.y, w.width, w.height⟩, some (w.conf.getD 0), res.imgW, res.imgH⟩)
      .ok ⟨String.intercalate " " (words.map (fun w => w.text)), words, res.imgW, res.imgH⟩
    | .error _ => fallback
  else fallback

/-- `recognizePage` from src/ocr/provider.ts: the outer catch maps every
failure to an empty page result, so the exported operation always
resolves with an `OcrPage`. -/
def recognizePage (env : ProviderEnv) : OcrPage :=
  match recognizePageTry env with
  | .ok page => page
  | .error _ => ⟨"", [], 0, 0⟩

/-- The uri actually recognized, from the signature of `recognizePage`
(src/ocr/provider.ts): `const uriToUse = processedUri ?? imagePath`. -/
def recognizeUriToUse (imagePath : String) (processedUri : Option String) : String :=
  processedUri.getD imagePath

/-! ## OCR queue (src/ocr/queue.ts) -/

/-- Events emitted through `ocrEvents`. -/
inductive OcrEvent
  | progress (documentId : String) (processed total : Nat)
  | complete (documentId : String) (success : Bool) (err : Option String)
deriving DecidableEq, Repr

/-- `createOcrExcerpt` from src/ocr/queue.ts: join the page texts, then
cut near 200 characters at a word boundary with an ellipsis. -/
def lastSpaceIdx (s : String) : Option Nat :=
  (((List.range s.length).filter (fun i => s.toList.get? i = some ' ')).getLast?)

def createOcrExcerpt (pages : List Page) : String :=
  let allText := (String.intercalate " " (pages.map (fun p => p.ocrText.getD ""))).trim
  if allText.length ≤ 200 then allText
  else
    let cutoff := allText.take 200
    match lastSpaceIdx cutoff with
    | some i => if 150 < i then cutoff.take i ++ "…" else cutoff ++ "…"
    | none => cutoff ++ "…"

/-- The per-page write-back of `processDocument`: on success store the
full text and word boxes; on a page-level failure store empty text and
an empty box list. -/
def applyOutcome (page : Page) (r : Except Unit OcrPage) : Page :=
  match r with
  | .ok res => { page with ocrText := some res.fullText, ocrBoxes := some res.words }
  | .error _ => { page with ocrText := some "", ocrBoxes := some [] }

/-- The final `ocr` backward-compatibility field:
`updatedPages.map(p => p.ocrText ?? '').filter(Boolean)`. -/
def ocrCompatField (pages : List Page) : List String :=
  (pages.map (fun p => p.ocrText.getD "")).filter (fun t => !t.isEmpty)

/-- The page loop of `processDocument` for a run during which no cancel
occurs: processes pages in order against the given per-page outcomes,
incrementing `processed` and emitting a progress event after every page
regardless of success.  Returns the updated pages, the final `processed`
count, and the emitted progress events. -/
def processPagesRun (d : String) (total : Nat) :
    List Page → List (Except Unit OcrPage) → Nat → List Page × Nat × List OcrEvent
  | [], _, processed => ([], processed, [])
  | p :: ps, [], processed =>
      -- outcome list exhausted: remaining pages are untouched (the
      -- claims always supply one outcome per page)
      (p :: ps, processed, [])
  | p :: ps, r :: rs, processed =>
      let p' := applyOutcome p r
      let rest := processPagesRun d total ps rs (processed + 1)
      (p' :: rest.1, rest.2.1, .progress d (processed + 1) total :: rest.2.2)

/-- A full, uncancelled, exception-free run of
`OcrQueue.processDocument` (src/ocr/queue.ts) on a document that stays
in the store: initial running/progress write, the page loop, and the
final write marking the document done.  Returns the finally stored
document and the emitted events in order. -/
def processDocumentRun (doc : Doc) (outcomes : List (Except Unit OcrPage)) :
    Doc × List OcrEvent :=
  let total := doc.pages.length
  let run := processPagesRun doc.id total doc.pages outcomes 0
  let updatedPages := run.1
  let processed := run.2.1
  let finalDoc : Doc :=
    { doc with
        ocrStatus := some OcrStatus.done
        ocrProgress := some ⟨processed, total⟩
        ocrExcerpt := some (createOcrExcerpt updatedPages)
        pages := updatedPages
        ocr := ocrCompatField updatedPages }
  (finalDoc, .progress doc.id 0 total :: run.2.2 ++ [.complete doc.id true none])

/-! ## OCR queue: interleaved small-step model

The `OcrQueue` singleton runs on a single JavaScript thread; the only
suspension point inside `processDocument` is the awaited
`recognizePage(page.uri)` call, and `getDocsIndex`/`saveDocsIndex` are
synchronous.  A state therefore consists of the queue fields, the store,
the emitted events, the set of in-flight recognition calls (each
carrying the local variables of its suspended `processDocument` run) and
the number of pending `setTimeout(processNext)` callbacks.  Each
external stimulus (an `enqueueDoc`/`cancel` call, the settlement of an
in-flight recognition promise, a timer firing) runs the corresponding
synchronous code to its next suspension point. -/

/-- The suspended local state of one `processDocument` run, awaiting the
recognition call for page index `i`; `uri` is the argument the code
passed to `recognizePage` (which is `page.uri`, src/ocr/queue.ts
line 223). -/
structure RunFrame where
  documentId : String
  pages : List Page
  updatedPages : List Page
  processed : Nat
  total : Nat
  i : Nat
  uri : String
deriving DecidableEq, Repr

structure QState where
  isProcessing : Bool
  currentDocumentId : Option String
  processingQueue : List String
  docs : List Doc
  events : List OcrEvent
  inFlight : List RunFrame
  timers : Nat
deriving DecidableEq, Repr

/-- `updateDocumentOcrState`: update the first store document with the
given id, a no-op when absent. -/
def updateDocs (l : List Doc) (d : String) (f : Doc → Doc) : List Doc :=
  match l with
  | [] => []
  | dd :: rest => if dd.id = d then f dd :: rest else dd :: updateDocs rest d f

def updateDoc (s : QState) (d : String) (f : Doc → Doc) : QState :=
  { s with docs := updateDocs s.docs d f }

def emit (s : QState) (e : OcrEvent) : QState :=
  { s with events := s.events ++ [e] }

/-- The `finally` block of `processNext`: reset the processing flags and
schedule a deferred `processNext` when documents are waiting. -/
def finallyReset (s : QState) : QState :=
  { s with
      isProcessing := false
      currentDocumentId := none
      timers := if s.processingQueue.length > 0 then s.timers + 1 else s.timers }

/-- End of the page loop: compute the excerpt, write the final document
state (when the document is still in the store), emit the success
completion event, then run the `finally` block. -/
def finishDocument (d : String) (updatedPages : List Page)
    (processed total : Nat) (s : QState) : QState :=
  let excerpt := createOcrExcerpt updatedPages
  let s := updateDoc s d (fun dd =>
    { dd with
        ocrStatus := some OcrStatus.done
        ocrProgress := some ⟨processed, total⟩
        ocrExcerpt := some excerpt
        pages := updatedPages
        ocr := ocrCompatField updatedPages })
  finallyReset (emit s (.complete d true none))

/-- One resumption of the page loop at index `i`: finish after the last
page; otherwise perform the cancellation check (returning silently —
which runs the `finally` block — when this run's document is no longer
the current one) and start the recognition call for page `i`. -/
def loopIssue (d : String) (pages updatedPages : List Page)
    (processed total i : Nat) (s : QState) : QState :=
  if h : i < pages.length then
    if s.currentDocumentId ≠ some d then finallyReset s
    else
      let page := pages.get ⟨i, h⟩
      { s with inFlight := s.inFlight ++ [⟨d, pages, updatedPages, processed, total, i, page.uri⟩] }
  else finishDocument d updatedPages processed total s

/-- The synchronous prefix of `processDocument`: re-read the document;
a missing or page-less document rejects, which lands in `processNext`'s
catch (error status write, failure completion event) and `finally`;
otherwise write the running status and initial progress, emit the
initial progress event, and enter the page loop. -/
def startProcessDocument (d : String) (s : QState) : QState :=
  match s.docs.find? (fun dd => dd.id = d) with
  | none =>
    let s := updateDoc s d (fun dd => { dd with ocrStatus := some OcrStatus.error })
    finallyReset (emit s (.complete d false (some "Document not found")))
  | some doc =>
    if doc.pages.isEmpty then
      let s := updateDoc s d (fun dd => { dd with ocrStatus := some OcrStatus.error })
      finallyReset (emit s (.complete d false (some "Document has no pages")))
    else
      let total := doc.pages.length
      let s := updateDoc s d (fun dd =>
        { dd with ocrStatus := some OcrStatus.running, ocrProgress := some ⟨0, total⟩ })
      let s := emit s (.progress d 0 total)
      loopIssue d doc.pages doc.pages 0 total 0 s

/-- `processNext`: a no-op while processing or with an empty wait list;
otherwise pop the next document id, mark it current and start it. -/
def processNextSync (s : QState) : QState :=
  if s.isProcessing then s
  else
    match s.processingQueue with
    | [] => s
    | d :: rest =>
      startProcessDocument d
        { s with processingQueue := rest, isProcessing := true, currentDocumentId := some d }

/-- `enqueueDoc`: skip documents that are absent, already done or
already running; append to the wait list unless already waiting or
current; kick the worker when idle. -/
def enqueueAction (d : String) (s : QState) : QState :=
  match s.docs.find? (fun dd => dd.id = d) with
  | none => s
  | some doc =>
    if doc.ocrStatus = some OcrStatus.done then s
    else if doc.ocrStatus = some OcrStatus.running then s
    else
      let s :=
        if !s.processingQueue.contains d && s.currentDocumentId ≠ some d then
          { s with processingQueue := s.processingQueue ++ [d] }
        else s
      if !s.isProcessing then processNextSync s else s

/-- `cancel`: drop the document from the wait list; when it is the
current document, write its status back to idle, clear the processing
flags and immediately start the next queued document.  The in-flight
recognition call of the cancelled run is left pending. -/
def cancelAction (d : String) (s : QState) : QState :=
  let s := { s with processingQueue := s.processingQueue.filter (fun x => x ≠ d) }
  if s.currentDocumentId = some d then
    let s := updateDoc s d (fun dd => { dd with ocrStatus := some OcrStatus.idle })
    processNextSync { s with isProcessing := false, currentDocumentId := none }
  else s

/-- Settlement of the in-flight recognition call held by `f`: both the
success path and the page-level catch write the page back, increment
`processed`, persist progress and pages, emit a progress event, and
resume the loop at the next index. -/
def resolveFrame (f : RunFrame) (r : Except Unit OcrPage) (s : QState) : QState :=
  match f.pages.get? f.i with
  | none => s
  | some page =>
    let newPage := applyOutcome page r
    let updatedPages := f.updatedPages.set f.i newPage
    let processed := f.processed + 1
    let s := updateDoc s f.documentId (fun dd =>
      { dd with ocrProgress := some ⟨processed, f.total⟩, pages := updatedPages })
    let s := emit s (.progress f.documentId processed f.total)
    loopIssue f.documentId f.pages updatedPages processed f.total (f.i + 1) s

/-- External stimuli driving the queue. -/
inductive QAction
  | enqueue (d : String)
  | cancel (d : String)
  | resolve (j : Nat) (r : Except Unit OcrPage)
  | timer
deriving Repr

def QAction.isCancel : QAction → Bool
  | .cancel _ => true
  | _ => false

def step (a : QAction) (s : QState) : QState :=
  match a with
  | .enqueue d => enqueueAction d s
  | .cancel d => cancelAction d s
  | .resolve j r =>
    match s.inFlight.get? j with
    | none => s
    | some f => resolveFrame f r { s with inFlight := s.inFlight.eraseIdx j }
  | .timer =>
    if s.timers = 0 then s
    else processNextSync { s with timers := s.timers - 1 }

def runQueue (s : QState) (acts : List QAction) : QState :=
  acts.foldl (fun st a => step a st) s

/-- The initial singleton state over a given store. -/
def initState (docs : List Doc) : QState :=
  ⟨false, none, [], docs, [], [], 0⟩

/-- The global single-flight property of §4.3: all in-flight recognition
calls belong to one document (so while one document is being processed,
no call for a different document is in flight). -/
def SingleFlight (s : QState) : Prop :=
  ∀ f1 ∈ s.inFlight, ∀ f2 ∈ s.inFlight, f1.documentId = f2.documentId

instance (s : QState) : Decidable (SingleFlight s) := by
  unfold SingleFlight; infer_instance

/-! ## Concrete instances used by witnesses and counterexamples -/

/-- A file system on which every path exists and ImageFilters is absent. -/
def plainFs : FsEnv := ⟨fun _ => true, false, fun u _ _ _ => .ok u⟩

/-- A file system on which no path exists and ImageFilters is absent. -/
def emptyFs : FsEnv := ⟨fun _ => false, false, fun u _ _ _ => .ok u⟩

/-- An image loader resolving the two images of the mixed-size example
document: "a" is 100x200, "b" is 50x80. -/
def mixedLoad : String → Option (ℚ × ℚ) :=
  fun s => if s = "a" then some (100, 200) else if s = "b" then some (50, 80) else none

/-- Native payload of a two-page document whose images have different
pixel sizes. -/
def mixedPages : List NativePage := [⟨"a", 100, 200, []⟩, ⟨"b", 50, 80, []⟩]

/-- An image loader making every image 1000x1400. -/
def load1000 : String → Option (ℚ × ℚ) := fun _ => some (1000, 1400)

/-- A recognized word with accurate pixel box against a 1000x1400 raster. -/
def helloWord : OcrWord := ⟨"Hello", ⟨100, 50, 200, 40⟩, some 1, 1000, 1400⟩

/-- A page holding one accurate OCR word box. -/
def boxedPage : Page :=
  ⟨"p1", "img1", none, Filter.color, none, some 1000, some 1400,
    some "Hello", some [helloWord], none⟩

/-- A document whose OCR is still running but whose first page already
has persisted word boxes (exactly the partial state the queue writes). -/
def runningDoc : Doc :=
  ⟨"A", "T", [boxedPage], [], some OcrStatus.running, some ⟨1, 1⟩, none, none, none⟩

/-- A text-only fallback-tier page: non-empty `ocrText`, empty boxes. -/
def textOnlyPage : Page :=
  ⟨"p1", "img1", none, Filter.color, none, some 1000, some 1400,
    some "some text", some [], none⟩

/-- A done document whose only page came from the text-only tier. -/
def textOnlyDoc : Doc :=
  ⟨"A", "T", [textOnlyPage], [], some OcrStatus.done, some ⟨1, 1⟩, none, none, none⟩

/-- A mixed document: page 0 has accurate Vision boxes, page 1 came from
the text-only fallback tier (text but no boxes). -/
def mixedDoc : Doc :=
  ⟨"A", "T", [boxedPage, textOnlyPage], [], some OcrStatus.done, some ⟨2, 2⟩,
    none, none, none⟩

/-- A clean page: no rotation, default filter, no auto-contrast. -/
def cleanPage : Page :=
  ⟨"p1", "scan1", none, Filter.color, none, none, none, none, none, none⟩

/-- An imported-PDF document with no visual edits. -/
def importedDoc : Doc :=
  ⟨"D", "T", [cleanPage], [], none, none, none, some "/orig.pdf", none⟩

/-- The same imported document after rotating its page by 90 degrees. -/
def rotatedDoc : Doc :=
  ⟨"D", "T", [{ cleanPage with rotation := some 90 }], [], none, none, none,
    some "/orig.pdf", none⟩

/-- A provider environment in which VisionOCR would eventually succeed
but only after the 30s timeout, and the TextRecognition fallback also
fails fast. -/
def timeoutEnv : ProviderEnv :=
  ⟨true, .ok ⟨1000, 1400, [⟨"Hi", 0, 0, 10, 10, some 1⟩]⟩, 40000,
    .ok (31, 47), .error "tr fail", .error "tr fail", 10⟩

/-- A provider environment in which VisionOCR fails fast with an engine
error and the TextRecognition fallback also fails fast. -/
def engineErrEnv : ProviderEnv :=
  ⟨true, .error "vision engine crashed", 10,
    .ok (31, 47), .error "tr fail", .error "tr fail", 10⟩

/-- A bare page with the given id and uri and no optional data. -/
def barePage (pid uri : String) : Page :=
  ⟨pid, uri, none, Filter.color, none, none, none, none, none, none⟩

/-- A three-page document awaiting OCR. -/
def doc3 : Doc :=
  ⟨"A", "T", [barePage "p0" "u0", barePage "p1" "u1", barePage "p2" "u2"],
    [], none, none, none, none, none⟩

/-- Per-page outcomes for the three-page run: page 1 (0-based) fails by
timeout, the others succeed. -/
def outs3 : List (Except Unit OcrPage) :=
  [.ok ⟨"first page", [], 0, 0⟩, .error (), .ok ⟨"third page", [], 0, 0⟩]

/-- A page whose pre-processed image differs from its raw image. -/
def c6page : Page :=
  ⟨"p1", "file:///raw.jpg", none, Filter.color, none, none, none, none, none,
    some "file:///proc.jpg"⟩

/-- A document holding `c6page`, awaiting OCR. -/
def c6doc : Doc := ⟨"A", "T", [c6page], [], none, none, none, none, none⟩

/-- A two-page document awaiting OCR (used in the cancellation traces). -/
def docA2 : Doc :=
  ⟨"A", "T", [barePage "a0" "ua0", barePage "a1" "ua1"], [], none, none, none,
    none, none⟩

/-- A one-page document awaiting OCR behind `docA2` in the queue. -/
def docB1 : Doc :=
  ⟨"B", "T", [barePage "b0" "ub0"], [], none, none, none, none, none⟩

/-- A successful recognition result. -/
def resHello : OcrPage := ⟨"HELLO", [], 0, 0⟩

/-- A two-page document with id "A" awaiting OCR, with arbitrary pages. -/
def twoPageDoc (p0 p1 : Page) : Doc :=
  ⟨"A", "T", [p0, p1], [], none, none, none, none, none⟩

/-- A queue state whose worker is busy on document "A" while "B" waits. -/
def busyState : QState :=
  ⟨true, some "A", ["B"], [docA2, docB1], [], [], 0⟩

/-! ## Claim C2 — the box-to-PDF word transform -/

/-- Claim C2: for a word box against a `sourceImageW x sourceImageH`
raster drawn into `destRect`, the transform scales X and Y independently
(`scaleX = destRect.width / sourceImageW`,
`scaleY = destRect.height / sourceImageH`), returns
`y = destRect.y + (destRect.height - (box.y + box.height) * scaleY)` —
so with scaleX = scaleY = 1 and destRect origin (0,0) the returned y is
`sourceImageH - (box.y + box.height)` — a font size of
`max(box.height * scaleY * 0.9, 6)`, and a baseline offset of 20% of the
font size which is added to the draw y so glyphs sit inside the box; the
native builder's word y agrees with the same formula. -/
theorem imageRectToPdfRect_transform_spec (box : Rect) (W H : ℚ) (dr : Rect)
    (hW : W ≠ 0) (hH : H ≠ 0) :
    (imageRectToPdfRect box W H dr).x = dr.x + box.x * (dr.width / W) ∧
    (imageRectToPdfRect box W H dr).y
      = dr.y + (dr.height - (box.y + box.height) * (dr.height / H)) ∧
    (dr.x = 0 → dr.y = 0 → dr.width = W → dr.height = H →
      (imageRectToPdfRect box W H dr).y = H - (box.y + box.height)) ∧
    (imageRectToPdfRect box W H dr).size
      = max (box.height * (dr.height / H) * (9 / 10)) 6 ∧
    (imageRectToPdfRect box W H dr).baselineAdjust
      = (imageRectToPdfRect box W H dr).size * (1 / 5) ∧
    (∀ t ∈ drawInvisibleTextLayer [⟨"w", box, none, W, H⟩] W H dr,
      t.y = (imageRectToPdfRect box W H dr).y
              + (imageRectToPdfRect box W H dr).baselineAdjust) ∧
    (swiftWordPlacement dr W H box.x box.y box.width box.height).2.1
      = dr.y + (dr.height - (box.y + box.height) * (dr.height / H)) := by
  refine ⟨rfl, rfl, ?_, rfl, rfl, ?_, ?_⟩
  · intro hx hy hw hh
    simp only [imageRectToPdfRect, hx, hy, hh]
    rw [div_self hH]
    ring
  · intro t ht
    simp only [drawInvisibleTextLayer, List.filter, List.map] at ht
    rcases ht' : (String.trim "w").isEmpty with _ | _ <;> simp [ht'] at ht <;>
      simp [ht]
  · simp only [swiftWordPlacement]
    field_simp
    ring

/-- Witness for C2 at the spec's own scenario: box
`{x:100, y:50, width:200, height:40}` in a 1000x1400 raster drawn 1:1 at
the origin gives y = 1310 and font size 36. -/
theorem imageRectToPdfRect_transform_spec_witness :
    (imageRectToPdfRect ⟨100, 50, 200, 40⟩ 1000 1400 ⟨0, 0, 1000, 1400⟩).y = 1310 ∧
    (imageRectToPdfRect ⟨100, 50, 200, 40⟩ 1000 1400 ⟨0, 0, 1000, 1400⟩).size = 36 := by
  have h := imageRectToPdfRect_transform_spec ⟨100, 50, 200, 40⟩ 1000 1400
    ⟨0, 0, 1000, 1400⟩ (by norm_num) (by norm_num)
  constructor
  · rw [h.2.2.1 rfl rfl rfl rfl]; norm_num
  · rw [h.2.2.2.1]; norm_num

/-! ## Claim C10 — zero-guarded geometry divisions (refuted) -/

/-- Counterexample to claim C10: the divisions are not guarded.  For the
zero-sized source image `imgW = imgH = 0`, `getContainRect` produces a
NaN width (0 * Infinity) rather than degrading to a no-scale identity,
and the native overlay scale for `imgW = 0` is Infinity. -/
theorem getContainRect_zero_not_guarded :
    (getContainRect (.q 0) (.q 0) (.q 100) (.q 100)).width = JF.nan ∧
    ¬ (getContainRect (.q 0) (.q 0) (.q 100) (.q 100)).width.isFinite ∧
    nativeOverlayScaleX (.q 1000) (.q 0) = JF.inf ∧
    ¬ (nativeOverlayScaleX (.q 1000) (.q 0)).isFinite := by
  refine ⟨by decide, by decide, by decide, by decide⟩

/-- Amended C10: the contain-rect computation performs its divisions
unguarded — a zero-sized source image can yield NaN/Infinity (see the
counterexample) — but for a source image with non-zero dimensions every
component of the result is an ordinary finite number. -/
theorem getContainRect_finite_of_nonzero (iw ih bw bh : ℚ)
    (hiw : iw ≠ 0) (hih : ih ≠ 0) :
    (getContainRect (.q iw) (.q ih) (.q bw) (.q bh)).x.isFinite ∧
    (getContainRect (.q iw) (.q ih) (.q bw) (.q bh)).y.isFinite ∧
    (getContainRect (.q iw) (.q ih) (.q bw) (.q bh)).width.isFinite ∧
    (getContainRect (.q iw) (.q ih) (.q bw) (.q bh)).height.isFinite := by
  simp only [getContainRect, JF.jdiv, JF.jmin, JF.jmul, JF.jsub, hiw, hih,
    if_neg, if_false, JF.isFinite]
  norm_num [hiw, hih]

/-- Witness for the amended C10 at a concrete non-degenerate input. -/
theorem getContainRect_finite_of_nonzero_witness :
    (getContainRect (.q 200) (.q 100) (.q 50) (.q 80)).x.isFinite ∧
    (getContainRect (.q 200) (.q 100) (.q 50) (.q 80)).y.isFinite ∧
    (getContainRect (.q 200) (.q 100) (.q 50) (.q 80)).width.isFinite ∧
    (getContainRect (.q 200) (.q 100) (.q 50) (.q 80)).height.isFinite :=
  getContainRect_finite_of_nonzero 200 100 50 80 (by norm_num) (by norm_num)

/-! ## Claim C3 — the original-PDF fast path -/

/-- The rebuild branch never yields the original-PDF result. -/
theorem rebuildFromImages_ne_originalPdf (env : FsEnv)
    (loadImage : String → Option (ℚ × ℚ)) (doc : Doc) (u : String) :
    rebuildFromImages env loadImage doc ≠ ExportResult.originalPdf u := by
  unfold rebuildFromImages
  split
  · simp
  · split <;> simp

/-- Claim C3: `buildPdfFromImages` returns the original imported PDF
(the `file://` uri of `originalPdfPath`, hence byte-identical content)
exactly when `originalPdfPath` is set, that file exists, and no page has
a visual edit; a rotation of 90 on any page forces the rebuild path, and
a missing original file falls through to the rebuild result instead of
failing. -/
theorem buildPdfFromImages_fast_path_spec (env : FsEnv)
    (loadImage : String → Option (ℚ × ℚ)) (doc : Doc) :
    (∀ p, doc.originalPdfPath = some p → hasVisualEdits doc = false →
      env.fileExists p = true →
      buildPdfFromImages env loadImage doc = .originalPdf ("file://" ++ p)) ∧
    ((∃ u, buildPdfFromImages env loadImage doc = .originalPdf u) ↔
      (∃ p, doc.originalPdfPath = some p ∧ hasVisualEdits doc = false ∧
        env.fileExists p = true)) ∧
    (∀ page ∈ doc.pages, page.rotation = some 90 →
      ∀ u, buildPdfFromImages env loadImage doc ≠ .originalPdf u) ∧
    (∀ p, doc.originalPdfPath = some p → env.fileExists p = false →
      buildPdfFromImages env loadImage doc = rebuildFromImages env loadImage doc) := by
  refine ⟨?_, ⟨?_, ?_⟩, ?_, ?_⟩
  · intro p hp hv he
    simp [buildPdfFromImages, hp, hv, he]
  · rintro ⟨u, hu⟩
    rcases hpath : doc.originalPdfPath with _ | p
    · have hr : buildPdfFromImages env loadImage doc
          = rebuildFromImages env loadImage doc := by
        unfold buildPdfFromImages; rw [hpath]
      rw [hr] at hu
      exact absurd hu (rebuildFromImages_ne_originalPdf _ _ _ _)
    · by_cases hv : hasVisualEdits doc
      · have hr : buildPdfFromImages env loadImage doc
            = rebuildFromImages env loadImage doc := by
          unfold buildPdfFromImages; rw [hpath]; simp [hv]
        rw [hr] at hu
        exact absurd hu (rebuildFromImages_ne_originalPdf _ _ _ _)
      · by_cases he : env.fileExists p
        · exact ⟨p, rfl, by simpa using hv, he⟩
        · have hr : buildPdfFromImages env loadImage doc
              = rebuildFromImages env loadImage doc := by
            unfold buildPdfFromImages; rw [hpath]
            simp only [Bool.not_eq_true] at hv
            simp [hv, he]
          rw [hr] at hu
          exact absurd hu (rebuildFromImages_ne_originalPdf _ _ _ _)
  · rintro ⟨p, hp, hv, he⟩
    exact ⟨"file://" ++ p, by simp [buildPdfFromImages, hp, hv, he]⟩
  · intro page hmem hrot u
    have hedit : pageHasVisualEdit page = true := by
      simp [pageHasVisualEdit, hrot]
    have hne : doc.pages ≠ [] := List.ne_nil_of_mem hmem
    have hv : hasVisualEdits doc = true := by
      unfold hasVisualEdits
      rw [if_neg (by simpa using hne)]
      exact List.any_eq_true.2 ⟨page, hmem, hedit⟩
    rcases hpath : doc.originalPdfPath with _ | p
    · have hr : buildPdfFromImages env loadImage doc
          = rebuildFromImages env loadImage doc := by
        unfold buildPdfFromImages; rw [hpath]
      rw [hr]
      exact rebuildFromImages_ne_originalPdf _ _ _ _
    · have hr : buildPdfFromImages env loadImage doc
          = rebuildFromImages env loadImage doc := by
        unfold buildPdfFromImages; rw [hpath]; simp [hv]
      rw [hr]
      exact rebuildFromImages_ne_originalPdf _ _ _ _
  · intro p hp he
    unfold buildPdfFromImages
    rw [hp]
    by_cases hv : hasVisualEdits doc <;> simp [hv, he]

/-- Witness for C3: the clean imported document is exported as the
original file, and the same document with one page rotated by 90 is not. -/
theorem buildPdfFromImages_fast_path_spec_witness :
    buildPdfFromImages plainFs load1000 importedDoc
      = ExportResult.originalPdf "file:///orig.pdf" ∧
    buildPdfFromImages plainFs load1000 rotatedDoc
      ≠ ExportResult.originalPdf "file:///orig.pdf" := by
  constructor
  · exact (buildPdfFromImages_fast_path_spec plainFs load1000 importedDoc).1
      "/orig.pdf" rfl (by decide) rfl
  · exact (buildPdfFromImages_fast_path_spec plainFs load1000 rotatedDoc).2.2.1
      { cleanPage with rotation := some 90 } (by simp [rotatedDoc]) rfl
      "file:///orig.pdf"

/-! ## Claim C8 — PDF page sizing (refuted: all pages use the first image's size) -/

/-- Counterexample to claim C8: in a two-page document whose images are
100x200 and 50x80 pixels, the native builder sizes the second PDF page
to the first image's dimensions (100x200), not to that page's own image
dimensions (50x80). -/
theorem swiftBuild_page_size_counterexample :
    (Except.map (fun l => l.map (fun rp => rp.pageRect))
        (swiftBuild mixedLoad mixedPages))
      = .ok [⟨0, 0, 100, 200⟩, ⟨0, 0, 100, 200⟩] ∧
    (⟨0, 0, 100, 200⟩ : Rect) ≠ ⟨0, 0, 50, 80⟩ := by
  constructor
  · rfl
  · decide

/-- Amended C8: every page of the rebuilt PDF is sized to the *first*
page's image pixel dimensions (1 image pixel = 1 PDF point for the first
page); each page's image is drawn filling that same full page rect, and
the overlay transform of each page is computed against the same rect. -/
theorem swiftBuild_all_pages_first_image_size
    (loadImage : String → Option (ℚ × ℚ)) (first : NativePage)
    (rest : List NativePage) (pw ph : ℚ)
    (hload : loadImage first.imagePath = some (pw, ph)) :
    ∀ out, swiftBuild loadImage (first :: rest) = .ok out →
      ∀ rp ∈ out, rp.pageRect = ⟨0, 0, pw, ph⟩ ∧ rp.imageRect = rp.pageRect := by
  intro out hout rp hrp
  unfold swiftBuild at hout
  dsimp only at hout
  rw [hload] at hout
  simp only [Except.ok.injEq] at hout
  subst hout
  rcases List.mem_filterMap.1 hrp with ⟨p, _, hmk⟩
  rcases hpl : loadImage p.imagePath with _ | sz
  · rw [hpl] at hmk; simp at hmk
  · rw [hpl] at hmk
    simp only [Option.some.injEq] at hmk
    subst hmk
    exact ⟨rfl, rfl⟩

/-- Witness for the amended C8 at the mixed-size example: the second
rendered page carries the first image's 100x200 rect and its image fills
it. -/
theorem swiftBuild_all_pages_first_image_size_witness :
    (⟨⟨0, 0, 100, 200⟩, ⟨0, 0, 100, 200⟩, []⟩ : RenderedPage).pageRect
        = ⟨0, 0, 100, 200⟩ ∧
    (⟨⟨0, 0, 100, 200⟩, ⟨0, 0, 100, 200⟩, []⟩ : RenderedPage).imageRect
        = (⟨⟨0, 0, 100, 200⟩, ⟨0, 0, 100, 200⟩, []⟩ : RenderedPage).pageRect :=
  swiftBuild_all_pages_first_image_size mixedLoad ⟨"a", 100, 200, []⟩
    [⟨"b", 50, 80, []⟩] 100 200 rfl
    [⟨⟨0, 0, 100, 200⟩, ⟨0, 0, 100, 200⟩, []⟩, ⟨⟨0, 0, 100, 200⟩, ⟨0, 0, 100, 200⟩, []⟩]
    rfl ⟨⟨0, 0, 100, 200⟩, ⟨0, 0, 100, 200⟩, []⟩ (by simp)

/-! ## Claim C7 — overlay gating (refuted: the native path has no ocrStatus gate) -/

/-- Counterexample to claim C7: a document whose OCR status is still
`running` but whose page already has persisted word boxes receives
invisible overlay text from the native export path, although its status
is not `done`. -/
theorem nativeExport_overlay_without_done_status :
    runningDoc.ocrStatus ≠ some OcrStatus.done ∧
    buildPdfFromImages emptyFs load1000 runningDoc
      = .rebuilt [⟨⟨0, 0, 1000, 1400⟩, ⟨0, 0, 1000, 1400⟩,
          [⟨"Hello", 100, 1310, 36, 1 / 100⟩]⟩] ∧
    ([⟨"Hello", 100, 1310, 36, 1 / 100⟩] : List DrawnText) ≠ [] := by
  refine ⟨by decide, ?_, by simp⟩
  norm_num [buildPdfFromImages, runningDoc, rebuildFromImages, docWithProcessedPages,
    getProcessedUriForExport, emptyFs, hasVisualEdits, pageHasVisualEdit, boxedPage,
    buildPdfNativePayload, mapExcept, stripFileScheme, helloWord, jsRound, swiftBuild,
    load1000]
  simp only [show ("img1" = "") = False by simp, if_false,
    show ('i' = 'f' ∧ 'm' = 'i' ∧ 'g' = 'l' ∧ '1' = 'e' ∧ [':', '/', '/'] = ([] : List Char))
      = False by simp]
  norm_num [List.filterMap]

/-- If the export rebuilt, the rebuild branch was taken with some
payload accepted by the native builder. -/
theorem buildPdfFromImages_rebuilt_inversion (env : FsEnv)
    (loadImage : String → Option (ℚ × ℚ)) (doc : Doc)
    (rendered : List RenderedPage)
    (h : buildPdfFromImages env loadImage doc = .rebuilt rendered) :
    ∃ payload, buildPdfNativePayload (docWithProcessedPages env doc) = .ok payload ∧
      swiftBuild loadImage payload = .ok rendered := by
  have hr : rebuildFromImages env loadImage doc = .rebuilt rendered := by
    unfold buildPdfFromImages at h
    split at h
    · split at h
      · split at h
        · simp at h
        · exact h
      · exact h
    · exact h
  unfold rebuildFromImages at hr
  split at hr
  · simp at hr
  · rename_i payload hpayload
    split at hr
    · simp at hr
    · rename_i rendered' hrendered
      simp only [ExportResult.rebuilt.injEq] at hr
      subst hr
      exact ⟨payload, hpayload, hrendered⟩

/-- Every element produced by an exception-free `mapExcept` satisfies
any property the body guarantees. -/
theorem mapExcept_forall {α β ε : Type _} (g : α → Except ε β) (P : β → Prop)
    (l : List α) (out : List β) (h : mapExcept g l = .ok out)
    (hg : ∀ a ∈ l, ∀ b, g a = .ok b → P b) : ∀ b ∈ out, P b := by
  induction l generalizing out with
  | nil =>
    unfold mapExcept at h
    simp only [Except.ok.injEq] at h
    subst h
    simp
  | cons a as ih =>
    unfold mapExcept at h
    rcases ha : g a with e | b0 <;> rw [ha] at h
    · simp at h
    · rcases has : mapExcept g as with e | bs <;> rw [has] at h
      · simp at h
      · simp only [Except.ok.injEq] at h
        subst h
        intro b hb
        rcases List.mem_cons.1 hb with rfl | hb
        · exact hg a (by simp) b ha
        · exact ih bs has (fun x hx => hg x (by simp [hx])) b hb

/-- Every element of an exception-free `mapExcept` is the image of the
positionally corresponding input element. -/
theorem mapExcept_length_getElem {α β ε : Type _} (g : α → Except ε β) :
    ∀ (l : List α) (out : List β), mapExcept g l = .ok out →
      out.length = l.length ∧
      ∀ (i : Nat) (a : α), l[i]? = some a → ∃ b, g a = .ok b ∧ out[i]? = some b := by
  intro l
  induction l with
  | nil =>
    intro out h
    unfold mapExcept at h
    simp only [Except.ok.injEq] at h
    subst h
    simp
  | cons a as ih =>
    intro out h
    unfold mapExcept at h
    rcases ha : g a with e | b <;> rw [ha] at h
    · simp at h
    · rcases has : mapExcept g as with e | bs <;> rw [has] at h
      · simp at h
      · simp only [Except.ok.injEq] at h
        subst h
        obtain ⟨ihlen, ihget⟩ := ih bs has
        refine ⟨by simp [ihlen], ?_⟩
        intro i x hx
        cases i with
        | zero =>
          simp only [List.getElem?_cons_zero, Option.some.injEq] at hx
          subst hx
          exact ⟨b, ha, by simp⟩
        | succ i =>
          obtain ⟨b', hb', hout⟩ := ihget i x (by simpa using hx)
          exact ⟨b', hb', by simpa using hout⟩

/-- A `filterMap` whose body succeeds on every list element, preserving
the overlay-text correspondence, keeps length and positions. -/
theorem filterMap_overlay_aux (F : NativePage → Option RenderedPage) :
    ∀ l : List NativePage,
      (∀ p ∈ l, ∃ rp, F p = some rp ∧
        rp.overlay.map (fun t => t.text) = p.ocrWords.map (fun w => w.text)) →
      ((l.filterMap F).length = l.length ∧
        ∀ (i : Nat) (np : NativePage), l[i]? = some np →
          ∃ rp, (l.filterMap F)[i]? = some rp ∧
            rp.overlay.map (fun t => t.text) = np.ocrWords.map (fun w => w.text)) := by
  intro l
  induction l with
  | nil => intro _; simp
  | cons a as ih =>
    intro hF
    obtain ⟨rpa, hrpa, hta⟩ := hF a (by simp)
    obtain ⟨ihlen, ihget⟩ := ih (fun x hx => hF x (by simp [hx]))
    refine ⟨by simp [List.filterMap_cons, hrpa, ihlen], ?_⟩
    intro i np hnp
    cases i with
    | zero =>
      simp only [List.getElem?_cons_zero, Option.some.injEq] at hnp
      subst hnp
      exact ⟨rpa, by simp [List.filterMap_cons, hrpa], hta⟩
    | succ i =>
      obtain ⟨rp, hrp, ht⟩ := ihget i np (by simpa using hnp)
      exact ⟨rp, by simpa [List.filterMap_cons, hrpa] using hrp, ht⟩

/-- When every image loads, the native builder renders one page per
payload page, in order, whose overlay texts are exactly that payload
page's word texts. -/
theorem swiftBuild_total_getElem (loadImage : String → Option (ℚ × ℚ))
    (pages : List NativePage) (rendered : List RenderedPage)
    (htotal : ∀ path, (loadImage path).isSome = true)
    (h : swiftBuild loadImage pages = .ok rendered) :
    rendered.length = pages.length ∧
    ∀ (i : Nat) (np : NativePage), pages[i]? = some np →
      ∃ rp, rendered[i]? = some rp ∧
        rp.overlay.map (fun t => t.text) = np.ocrWords.map (fun w => w.text) := by
  cases pages with
  | nil => unfold swiftBuild at h; simp at h
  | cons first rest =>
    unfold swiftBuild at h
    dsimp only at h
    rcases hload : loadImage first.imagePath with _ | sz
    · have hc := htotal first.imagePath
      rw [hload] at hc
      simp at hc
    · rw [hload] at h
      obtain ⟨pw, ph⟩ := sz
      simp only [Except.ok.injEq] at h
      subst h
      refine filterMap_overlay_aux _ _ ?_
      intro p _
      rcases hpl : loadImage p.imagePath with _ | sz2
      · have hc := htotal p.imagePath
        rw [hpl] at hc
        simp at hc
      · simp only [hpl]
        exact ⟨_, rfl, by simp only [List.map_map]; rfl⟩

/-- Claim C7, amended: (a) in the native export path the overlay is
determined page by page, with no document-level `ocrStatus` gate: when
every page image loads, the i-th rendered page's overlay texts are
exactly the word texts of the i-th page's `ocrBoxes` — so a page
receives overlay text iff its own boxes are non-empty, and a text-only
fallback-tier page never gets overlay text even inside a mixed document
whose other pages have boxes; (a2) a document all of whose pages are
box-free gets no overlay anywhere, with no assumption on image loading;
(b) the recognition fallback tier indeed returns an empty word list
whenever VisionOCR is unavailable or its timed call fails; (c) the
document-level `ocrStatus = done` condition of the claim is enforced
only by the legacy pdf-lib builder's `hasOcrData` gate, not by the
native path (see the counterexample). -/
theorem overlay_gating_amended :
    (∀ (env : FsEnv) (loadImage : String → Option (ℚ × ℚ)) (doc : Doc)
      (rendered : List RenderedPage),
      (∀ path, (loadImage path).isSome = true) →
      buildPdfFromImages env loadImage doc = .rebuilt rendered →
      rendered.length = doc.pages.length ∧
      ∀ (i : Nat) (page : Page) (rp : RenderedPage),
        doc.pages[i]? = some page → rendered[i]? = some rp →
        rp.overlay.map (fun t => t.text)
          = (page.ocrBoxes.getD []).map (fun w => w.text)) ∧
    (∀ (env : FsEnv) (loadImage : String → Option (ℚ × ℚ)) (doc : Doc)
      (rendered : List RenderedPage),
      (∀ p ∈ doc.pages, p.ocrBoxes.getD [] = []) →
      buildPdfFromImages env loadImage doc = .rebuilt rendered →
      ∀ rp ∈ rendered, rp.overlay = []) ∧
    (∀ env : ProviderEnv,
      (env.visionAvailable = false ∨
        ∃ e, withTimeout env.visionOutcome env.visionMs OCR_TIMEOUT_MS = .error e) →
      (recognizePage env).words = []) ∧
    (∀ (doc : Doc) (page : Page), pdfLibPageOverlaid doc page = true →
      doc.ocrStatus = some OcrStatus.done ∧ page.ocrBoxes.getD [] ≠ []) := by
  refine ⟨?_, ?_, ?_, ?_⟩
  · intro env loadImage doc rendered htotal h
    obtain ⟨payload, hpayload, hswift⟩ :=
      buildPdfFromImages_rebuilt_inversion env loadImage doc rendered h
    obtain ⟨hrlen, hrget⟩ :=
      swiftBuild_total_getElem loadImage payload rendered htotal hswift
    unfold buildPdfNativePayload at hpayload
    split at hpayload
    · simp at hpayload
    · obtain ⟨hplen, hpget⟩ := mapExcept_length_getElem _ _ _ hpayload
      have hdlen : (docWithProcessedPages env doc).pages.length = doc.pages.length := by
        simp [docWithProcessedPages]
      constructor
      · rw [hrlen, hplen, hdlen]
      · intro i page rp hpage hrp
        have hpage' : (docWithProcessedPages env doc).pages[i]?
            = some { page with uri := getProcessedUriForExport env page } := by
          simp [docWithProcessedPages, List.getElem?_map, hpage]
        obtain ⟨np, hg, hpayi⟩ := hpget i _ hpage'
        obtain ⟨rp', hrpi, htext⟩ := hrget i np hpayi
        rw [hrp] at hrpi
        obtain rfl := Option.some.inj hrpi
        rw [htext]
        dsimp only at hg
        split at hg
        · simp at hg
        · simp only [Except.ok.injEq] at hg
          subst hg
          simp only [List.map_map]
          rfl
  · intro env loadImage doc rendered hboxes h rp hrp
    obtain ⟨payload, hpayload, hswift⟩ :=
      buildPdfFromImages_rebuilt_inversion env loadImage doc rendered h
    have hwords : ∀ np ∈ payload, np.ocrWords = [] := by
      unfold buildPdfNativePayload at hpayload
      split at hpayload
      · simp at hpayload
      · refine mapExcept_forall _ _ _ _ hpayload ?_
        intro page hpage np hnp
        have hpb : page.ocrBoxes.getD [] = [] := by
          rcases List.mem_map.1 hpage with ⟨p0, hp0, rfl⟩
          exact hboxes p0 hp0
        split at hnp
        · simp at hnp
        · simp only [Except.ok.injEq] at hnp
          subst hnp
          simp [hpb]
    unfold swiftBuild at hswift
    split at hswift
    · simp at hswift
    · rename_i first rest
      split at hswift
      · simp at hswift
      · simp only [Except.ok.injEq] at hswift
        subst hswift
        rcases List.mem_filterMap.1 hrp with ⟨p, hp, hmk⟩
        rcases hpl : loadImage p.imagePath with _ | sz <;> rw [hpl] at hmk
        · simp at hmk
        · simp only [Option.some.injEq] at hmk
          subst hmk
          simp [hwords p hp]
  · intro env henv
    unfold recognizePage recognizePageTry
    rcases henv with hna | ⟨e, he⟩
    · rw [hna]
      simp only [Bool.false_eq_true, if_false]
      rcases env.imageSize with e | wh
      · rfl
      · rcases withTimeout (recognizePromise env.textRecWithScheme env.textRecPlain)
            env.textRecMs OCR_TIMEOUT_MS with e | lines <;> rfl
    · rcases hav : env.visionAvailable with _ | _
      · simp only [Bool.false_eq_true, if_false]
        rcases env.imageSize with e | wh
        · rfl
        · rcases withTimeout (recognizePromise env.textRecWithScheme env.textRecPlain)
              env.textRecMs OCR_TIMEOUT_MS with e | lines <;> rfl
      · simp only [if_true, he]
        rcases env.imageSize with e | wh
        · rfl
        · rcases withTimeout (recognizePromise env.textRecWithScheme env.textRecPlain)
              env.textRecMs OCR_TIMEOUT_MS with e | lines <;> rfl
  · intro doc page h
    unfold pdfLibPageOverlaid hasOcrData at h
    simp only [Bool.and_eq_true, beq_iff_eq, Bool.not_eq_true',
      List.isEmpty_eq_false] at h
    exact ⟨h.1.1, by simpa using h.2⟩

/-- Witness for the amended C7 on a mixed document: the boxed page's
overlay holds exactly its word text while the text-only fallback page in
the same document gets none, and a vision-unavailable provider
environment yields an empty word list. -/
theorem overlay_gating_amended_witness :
    ([(⟨"Hello", 100, 1310, 36, 1 / 100⟩ : DrawnText)]).map (fun t => t.text)
      = (boxedPage.ocrBoxes.getD []).map (fun w => w.text) ∧
    ([] : List DrawnText).map (fun t => t.text)
      = (textOnlyPage.ocrBoxes.getD []).map (fun w => w.text) ∧
    (recognizePage ⟨false, .error "na", 0, .ok (31, 47),
        .ok ["line one"], .ok ["line one"], 10⟩).words = [] := by
  have hbuild : buildPdfFromImages emptyFs load1000 mixedDoc
      = .rebuilt [⟨⟨0, 0, 1000, 1400⟩, ⟨0, 0, 1000, 1400⟩,
            [⟨"Hello", 100, 1310, 36, 1 / 100⟩]⟩,
          ⟨⟨0, 0, 1000, 1400⟩, ⟨0, 0, 1000, 1400⟩, []⟩] := by
    norm_num [buildPdfFromImages, mixedDoc, rebuildFromImages, docWithProcessedPages,
      getProcessedUriForExport, emptyFs, hasVisualEdits, pageHasVisualEdit, boxedPage,
      textOnlyPage, buildPdfNativePayload, mapExcept, stripFileScheme, helloWord,
      jsRound, swiftBuild, load1000]
    simp only [show ("img1" = "") = False by simp, if_false,
      show ('i' = 'f' ∧ 'm' = 'i' ∧ 'g' = 'l' ∧ '1' = 'e' ∧ [':', '/', '/'] = ([] : List Char))
        = False by simp]
    norm_num [List.filterMap]
  have h := (overlay_gating_amended.1 emptyFs load1000 mixedDoc
    [⟨⟨0, 0, 1000, 1400⟩, ⟨0, 0, 1000, 1400⟩, [⟨"Hello", 100, 1310, 36, 1 / 100⟩]⟩,
      ⟨⟨0, 0, 1000, 1400⟩, ⟨0, 0, 1000, 1400⟩, []⟩]
    (fun _ => rfl) hbuild).2
  exact ⟨h 0 boxedPage _ rfl rfl, h 1 textOnlyPage _ rfl rfl,
    overlay_gating_amended.2.2.1 _ (Or.inl rfl)⟩

/-! ## Claim C9 — per-page recognition contract (refuted: failures never
reach the caller) -/

/-- Counterexample to claim C9: a 40-second VisionOCR call (a timeout)
and a fast VisionOCR engine crash produce *identical* results for the
caller of `recognizePage` — the internal failure reasons differ, but the
outer catch maps both runs to the same successful empty page, so a
timeout is not a failure reason distinguishable by the caller, and the
operation never fails with a typed recognition error. -/
theorem recognizePage_timeout_indistinguishable :
    recognizePage timeoutEnv = recognizePage engineErrEnv ∧
    recognizePage timeoutEnv = ⟨"", [], 0, 0⟩ ∧
    withTimeout timeoutEnv.visionOutcome timeoutEnv.visionMs OCR_TIMEOUT_MS
      = .error ("OCR timeout after " ++ toString OCR_TIMEOUT_MS ++ "ms") ∧
    withTimeout engineErrEnv.visionOutcome engineErrEnv.visionMs OCR_TIMEOUT_MS
      = .error "vision engine crashed" := by
  refine ⟨rfl, rfl, rfl, rfl⟩

/-- Claim C9, amended: `recognizePage` races each engine call against the
fixed 30-second timeout (`OCR_TIMEOUT_MS = 30000`), and a timed-out call
is rejected internally with a distinct timeout error; but the outer
catch converts every failure of the recognition body into a successful
empty `OcrPage`, so the exported operation always returns a page result
and never surfaces a typed recognition error to the caller. -/
theorem recognizePage_timeout_and_total_spec :
    OCR_TIMEOUT_MS = 30000 ∧
    (∀ (out : Except String VisionResult) (ms : Nat), OCR_TIMEOUT_MS ≤ ms →
      withTimeout out ms OCR_TIMEOUT_MS
        = .error ("OCR timeout after " ++ toString OCR_TIMEOUT_MS ++ "ms")) ∧
    (∀ (env : ProviderEnv) (e : String), recognizePageTry env = .error e →
      recognizePage env = ⟨"", [], 0, 0⟩) := by
  refine ⟨rfl, ?_, ?_⟩
  · intro out ms hms
    unfold withTimeout
    rw [if_pos hms]
  · intro env e h
    unfold recognizePage
    rw [h]

/-- Witness for the amended C9: the timeout fires on the 40-second
environment and its overall run is caught into the empty page. -/
theorem recognizePage_timeout_and_total_spec_witness :
    withTimeout timeoutEnv.visionOutcome 40000 OCR_TIMEOUT_MS
      = .error ("OCR timeout after " ++ toString OCR_TIMEOUT_MS ++ "ms") ∧
    recognizePage timeoutEnv = ⟨"", [], 0, 0⟩ := by
  constructor
  · exact recognizePage_timeout_and_total_spec.2.1 timeoutEnv.visionOutcome 40000
      (by decide)
  · exact recognizePage_timeout_and_total_spec.2.2 timeoutEnv "tr fail" rfl

/-! ## Claim C1 — a full uncancelled OCR run -/

theorem processPagesRun_length (d : String) (total : Nat) :
    ∀ (ps : List Page) (outs : List (Except Unit OcrPage)) (k : Nat),
      (processPagesRun d total ps outs k).1.length = ps.length := by
  intro ps
  induction ps with
  | nil => intro outs k; cases outs <;> rfl
  | cons p ps ih =>
    intro outs k
    cases outs with
    | nil => rfl
    | cons r rs => simpa [processPagesRun] using ih rs (k + 1)

theorem processPagesRun_processed (d : String) (total : Nat) :
    ∀ (ps : List Page) (outs : List (Except Unit OcrPage)) (k : Nat),
      outs.length = ps.length →
      (processPagesRun d total ps outs k).2.1 = k + ps.length := by
  intro ps
  induction ps with
  | nil =>
    intro outs k h
    rcases List.length_eq_zero.1 h
    rfl
  | cons p ps ih =>
    intro outs k h
    cases outs with
    | nil => simp at h
    | cons r rs =>
      have hlen : rs.length = ps.length := by simpa using h
      simp only [processPagesRun, ih rs (k + 1) hlen, List.length_cons]
      omega

theorem processPagesRun_ocrText_isSome (d : String) (total : Nat) :
    ∀ (ps : List Page) (outs : List (Except Unit OcrPage)) (k : Nat),
      outs.length = ps.length →
      ∀ p ∈ (processPagesRun d total ps outs k).1, p.ocrText.isSome := by
  intro ps
  induction ps with
  | nil =>
    intro outs k h
    rcases List.length_eq_zero.1 h
    simp [processPagesRun]
  | cons p ps ih =>
    intro outs k h
    cases outs with
    | nil => simp at h
    | cons r rs =>
      have hlen : rs.length = ps.length := by simpa using h
      intro q hq
      rcases List.mem_cons.1 (by simpa [processPagesRun] using hq) with rfl | hq'
      · cases r <;> simp [applyOutcome]
      · exact ih rs (k + 1) hlen q hq'

theorem processPagesRun_getElem (d : String) (total : Nat) :
    ∀ (ps : List Page) (outs : List (Except Unit OcrPage)) (k i : Nat)
      (p : Page) (r : Except Unit OcrPage),
      ps[i]? = some p → outs[i]? = some r →
      (processPagesRun d total ps outs k).1[i]? = some (applyOutcome p r) := by
  intro ps
  induction ps with
  | nil => intro outs k i p r hp; simp at hp
  | cons p0 ps ih =>
    intro outs k i p r hp hr
    cases outs with
    | nil => simp at hr
    | cons r0 rs =>
      cases i with
      | zero =>
        simp only [List.getElem?_cons_zero, Option.some.injEq] at hp hr
        subst hp; subst hr
        simp [processPagesRun]
      | succ i =>
        simp only [List.getElem?_cons_succ] at hp hr
        simpa [processPagesRun] using ih rs (k + 1) i p r hp hr

theorem processPagesRun_progress_mem (d : String) (total : Nat) :
    ∀ (ps : List Page) (outs : List (Except Unit OcrPage)) (k : Nat),
      outs.length = ps.length →
      ∀ m, m < ps.length →
        OcrEvent.progress d (k + m + 1) total ∈ (processPagesRun d total ps outs k).2.2 := by
  intro ps
  induction ps with
  | nil => intro outs k h m hm; simp at hm
  | cons p ps ih =>
    intro outs k h m hm
    cases outs with
    | nil => simp at h
    | cons r rs =>
      have hlen : rs.length = ps.length := by simpa using h
      cases m with
      | zero => simp [processPagesRun]
      | succ m =>
        have hm' : m < ps.length := by simpa using hm
        have hmem := ih rs (k + 1) hlen m hm'
        have heq : k + (m + 1) + 1 = (k + 1) + m + 1 := by omega
        rw [heq]
        simp only [processPagesRun, List.mem_cons]
        exact Or.inr hmem

/-- Claim C1: after a full run of `processDocument` over an N-page
document (N at least 1) without cancellation or a document-level error,
the stored document has status done, `processed = N = total`, and every
page has an `ocrText` string; a page whose recognition failed gets empty
text and boxes yet still counts as processed, a progress event `k/N`
exists for every page k, and the run ends with a success completion
event. -/
theorem processDocumentRun_full_run_spec (doc : Doc)
    (outcomes : List (Except Unit OcrPage))
    (hlen : outcomes.length = doc.pages.length) (hne : 1 ≤ doc.pages.length) :
    (processDocumentRun doc outcomes).1.ocrStatus = some OcrStatus.done ∧
    (processDocumentRun doc outcomes).1.ocrProgress
      = some ⟨doc.pages.length, doc.pages.length⟩ ∧
    (processDocumentRun doc outcomes).1.pages.length = doc.pages.length ∧
    (∀ p ∈ (processDocumentRun doc outcomes).1.pages, p.ocrText.isSome) ∧
    (∀ (i : Nat) (p : Page), doc.pages[i]? = some p →
      outcomes[i]? = some (Except.error ()) →
      ((processDocumentRun doc outcomes).1.pages[i]?)
        = some { p with ocrText := some "", ocrBoxes := some [] }) ∧
    (∀ k, 1 ≤ k → k ≤ doc.pages.length →
      OcrEvent.progress doc.id k doc.pages.length ∈ (processDocumentRun doc outcomes).2) ∧
    OcrEvent.progress doc.id 0 doc.pages.length ∈ (processDocumentRun doc outcomes).2 ∧
    OcrEvent.complete doc.id true none ∈ (processDocumentRun doc outcomes).2 := by
  have hproc := processPagesRun_processed doc.id doc.pages.length doc.pages outcomes 0 hlen
  refine ⟨rfl, ?_, ?_, ?_, ?_, ?_, ?_, ?_⟩
  · simp [processDocumentRun, hproc]
  · simpa [processDocumentRun] using
      processPagesRun_length doc.id doc.pages.length doc.pages outcomes 0
  · intro p hp
    exact processPagesRun_ocrText_isSome doc.id doc.pages.length doc.pages outcomes 0
      hlen p (by simpa [processDocumentRun] using hp)
  · intro i p hp herr
    have := processPagesRun_getElem doc.id doc.pages.length doc.pages outcomes 0 i p
      (.error ()) hp herr
    simp only [processDocumentRun]
    rw [this]
    rfl
  · intro k hk1 hkN
    have hmem := processPagesRun_progress_mem doc.id doc.pages.length doc.pages outcomes 0
      hlen (k - 1) (by omega)
    have heq : 0 + (k - 1) + 1 = k := by omega
    rw [heq] at hmem
    have hsh : (processDocumentRun doc outcomes).2
        = OcrEvent.progress doc.id 0 doc.pages.length
            :: ((processPagesRun doc.id doc.pages.length doc.pages outcomes 0).2.2
                ++ [OcrEvent.complete doc.id true none]) := rfl
    rw [hsh]
    exact List.mem_cons_of_mem _ (List.mem_append_left _ hmem)
  · have hsh : (processDocumentRun doc outcomes).2
        = OcrEvent.progress doc.id 0 doc.pages.length
            :: ((processPagesRun doc.id doc.pages.length doc.pages outcomes 0).2.2
                ++ [OcrEvent.complete doc.id true none]) := rfl
    rw [hsh]
    exact List.mem_cons_self _ _
  · have hsh : (processDocumentRun doc outcomes).2
        = OcrEvent.progress doc.id 0 doc.pages.length
            :: ((processPagesRun doc.id doc.pages.length doc.pages outcomes 0).2.2
                ++ [OcrEvent.complete doc.id true none]) := rfl
    rw [hsh]
    exact List.mem_cons_of_mem _ (List.mem_append_right _ (by simp))

/-- Witness for C1 at the spec's timeout scenario: a 3-page document
whose middle page fails still ends done with 3/3, the failed page stores
empty text, and the progress and completion events exist. -/
theorem processDocumentRun_full_run_spec_witness :
    (processDocumentRun doc3 outs3).1.ocrStatus = some OcrStatus.done ∧
    (processDocumentRun doc3 outs3).1.ocrProgress = some ⟨3, 3⟩ ∧
    ((processDocumentRun doc3 outs3).1.pages[1]?)
      = some { barePage "p1" "u1" with ocrText := some "", ocrBoxes := some [] } ∧
    OcrEvent.progress "A" 2 3 ∈ (processDocumentRun doc3 outs3).2 ∧
    OcrEvent.complete "A" true none ∈ (processDocumentRun doc3 outs3).2 := by
  have h := processDocumentRun_full_run_spec doc3 outs3 (by decide) (by decide)
  refine ⟨h.1, ?_, ?_, ?_, h.2.2.2.2.2.2.2⟩
  · simpa using h.2.1
  · have := h.2.2.2.2.1 1 (barePage "p1" "u1") (by decide) rfl
    simpa using this
  · simpa using h.2.2.2.2.2.1 2 (by decide) (by decide)

/-! ## Claim C6 — processedUri must be used for OCR and export (code bug) -/

/-- Claim C6 evaluated at a page whose `processedUri` is set: the PDF
export side resolves the pre-processed image, but the OCR queue passes
the raw `page.uri` to `recognizePage` (src/ocr/queue.ts line 223 passes
`page.uri` and omits the `processedUri` argument that `recognizePage`
was given for exactly this purpose), so the recognition call for the
in-flight page reads the raw image, violating the invariant. -/
theorem ocrQueue_uses_raw_uri_despite_processedUri :
    ((runQueue (initState [c6doc]) [QAction.enqueue "A"]).inFlight.map
        (fun f => f.uri)) = ["file:///raw.jpg"] ∧
    getProcessedUriForExport plainFs c6page = "file:///proc.jpg" ∧
    recognizeUriToUse "file:///raw.jpg" none = "file:///raw.jpg" ∧
    recognizeUriToUse c6page.uri c6page.processedUri = "file:///proc.jpg" ∧
    "file:///raw.jpg" ≠ "file:///proc.jpg" := by
  refine ⟨by decide, by decide, by decide, by decide, by decide⟩

/-! ## Claim C5 — cancel semantics (refuted: the in-flight result is
written back and reported) -/

/-- Counterexample to claim C5: cancel "A" while its page-0 recognition
call is in flight, then let that call resolve.  The cancelled document
does get status idle, but the in-flight result is *not* discarded: the
store afterwards holds the recognized text for page 0, the progress
count has advanced to 1/2, and a progress event was emitted after the
cancel. -/
theorem cancel_inflight_result_written_back :
    ((runQueue (initState [docA2])
        [QAction.enqueue "A", QAction.cancel "A", QAction.resolve 0 (.ok resHello)]).docs.map
      (fun d => (d.ocrStatus, d.ocrProgress, d.pages.map (fun p => p.ocrText))))
      = [(some OcrStatus.idle, some ⟨1, 2⟩, [some "HELLO", none])] ∧
    (runQueue (initState [docA2])
        [QAction.enqueue "A", QAction.cancel "A", QAction.resolve 0 (.ok resHello)]).events
      = [OcrEvent.progress "A" 0 2, OcrEvent.progress "A" 1 2] := by
  refine ⟨by decide, by decide⟩

/-- Claim C5, amended: cancelling the active document sets its status
back to idle and by itself changes nothing else — progress counts and
the per-page results of pages completed before the cancel stay exactly
as persisted — but the recognition call in flight at the moment of
cancellation is not discarded: when it resolves, its result is written
back to the store, the progress count is advanced, and a progress event
is emitted; only at the next page boundary does the run stop, issuing no
further recognition call and emitting no completion event. -/
theorem cancelSemantics_amended (p0 p1 : Page) (r : Except Unit OcrPage) :
    (runQueue (initState [twoPageDoc p0 p1])
        [QAction.enqueue "A", QAction.resolve 0 r, QAction.cancel "A"]).docs
      = [{ twoPageDoc p0 p1 with
            ocrStatus := some OcrStatus.idle
            ocrProgress := some ⟨1, 2⟩
            pages := [applyOutcome p0 r, p1] }] ∧
    ((runQueue (initState [twoPageDoc p0 p1])
        [QAction.enqueue "A", QAction.resolve 0 r, QAction.cancel "A"]).inFlight.map
      (fun f => (f.documentId, f.i))) = [("A", 1)] ∧
    (runQueue (initState [twoPageDoc p0 p1])
        [QAction.enqueue "A", QAction.cancel "A", QAction.resolve 0 r]).docs
      = [{ twoPageDoc p0 p1 with
            ocrStatus := some OcrStatus.idle
            ocrProgress := some ⟨1, 2⟩
            pages := [applyOutcome p0 r, p1] }] ∧
    (runQueue (initState [twoPageDoc p0 p1])
        [QAction.enqueue "A", QAction.cancel "A", QAction.resolve 0 r]).events
      = [OcrEvent.progress "A" 0 2, OcrEvent.progress "A" 1 2] ∧
    (runQueue (initState [twoPageDoc p0 p1])
        [QAction.enqueue "A", QAction.cancel "A", QAction.resolve 0 r]).inFlight = [] := by
  refine ⟨?_, ?_, ?_, ?_, ?_⟩ <;>
    simp [runQueue, step, enqueueAction, cancelAction, processNextSync,
      startProcessDocument, loopIssue, finallyReset, finishDocument, resolveFrame,
      updateDocs, updateDoc, emit, initState, twoPageDoc, List.find?, List.filter]

/-! ## Claim C4 — the single-flight invariant (refuted in the cancel case) -/

/-- Counterexample to claim C4: with "A" processing and "B" waiting,
cancelling "A" while its page recognition call is still awaited
immediately starts "B", so recognition calls for two *different*
documents are in flight at once — the single-flight property fails in
exactly the scenario the claim singles out. -/
theorem singleFlight_cancel_counterexample :
    ¬ SingleFlight (runQueue (initState [docA2, docB1])
        [QAction.enqueue "A", QAction.enqueue "B", QAction.cancel "A"]) ∧
    ((runQueue (initState [docA2, docB1])
        [QAction.enqueue "A", QAction.enqueue "B", QAction.cancel "A"]).inFlight.map
      (fun f => f.documentId)) = ["A", "B"] := by
  refine ⟨by decide, by decide⟩

/-- The single-flight invariant strengthened for induction: either no
recognition call is in flight, or exactly one is, belonging to the
worker's current document. -/
def QInv (s : QState) : Prop :=
  s.inFlight = [] ∨
    ∃ f, s.inFlight = [f] ∧ s.isProcessing = true ∧
      s.currentDocumentId = some f.documentId

theorem qinv_singleFlight (s : QState) (h : QInv s) : SingleFlight s := by
  rcases h with h | ⟨f, hf, -, -⟩
  · intro f1 h1; rw [h] at h1; simp at h1
  · intro f1 h1 f2 h2
    rw [hf] at h1 h2
    simp only [List.mem_singleton] at h1 h2
    rw [h1, h2]

theorem qinv_loopIssue (d : String) (ps ups : List Page) (proc tot i : Nat)
    (s : QState) (hin : s.inFlight = []) (hproc : s.isProcessing = true) :
    QInv (loopIssue d ps ups proc tot i s) := by
  unfold loopIssue
  split
  · rename_i hlt
    split
    · left
      simp [finallyReset, hin]
    · rename_i hcur
      right
      exact ⟨⟨d, ps, ups, proc, tot, i, (ps.get ⟨i, hlt⟩).uri⟩,
        by simp [hin], hproc, by simpa using hcur⟩
  · left
    simp [finishDocument, finallyReset, updateDoc, emit, hin]

theorem qinv_startProcessDocument (d : String) (s : QState)
    (hin : s.inFlight = []) (hproc : s.isProcessing = true) :
    QInv (startProcessDocument d s) := by
  unfold startProcessDocument
  split
  · left
    simp [finallyReset, updateDoc, emit, hin]
  · split
    · left
      simp [finallyReset, updateDoc, emit, hin]
    · exact qinv_loopIssue d _ _ 0 _ 0 _ (by simp [updateDoc, emit, hin])
        (by simp [updateDoc, emit, hproc])

theorem qinv_processNextSync (s : QState) (h : QInv s) :
    QInv (processNextSync s) := by
  unfold processNextSync
  split
  · exact h
  · rename_i hnp
    have hin : s.inFlight = [] := by
      rcases h with h | ⟨f, -, hp, -⟩
      · exact h
      · exact absurd hp hnp
    split
    · exact h
    · exact qinv_startProcessDocument _ _ (by simpa using hin) rfl

theorem qinv_step (s : QState) (a : QAction) (ha : a.isCancel = false)
    (h : QInv s) : QInv (step a s) := by
  cases a with
  | enqueue d =>
    show QInv (enqueueAction d s)
    unfold enqueueAction
    split
    · exact h
    · split
      · exact h
      · split
        · exact h
        · have hq : ∀ s' : QState, QInv s' →
              QInv (if (!s'.isProcessing) = true then processNextSync s' else s') := by
            intro s' h'
            split
            · exact qinv_processNextSync _ h'
            · exact h'
          dsimp only
          split
          · refine hq _ ?_
            rcases h with hnil | ⟨f, hf, hp, hc⟩
            · exact Or.inl hnil
            · exact Or.inr ⟨f, hf, hp, hc⟩
          · exact hq _ h
  | cancel d => simp [QAction.isCancel] at ha
  | resolve j r =>
    show QInv (match s.inFlight.get? j with
      | none => s
      | some f => resolveFrame f r { s with inFlight := s.inFlight.eraseIdx j })
    split
    · exact h
    · rename_i f hget
      rcases h with hnil | ⟨f0, hf0, hp, hc⟩
      · rw [hnil] at hget; simp at hget
      · rw [hf0] at hget
        have hj0 : j = 0 := by
          cases j with
          | zero => rfl
          | succ j => simp at hget
        subst hj0
        have hff : f0 = f := by simpa using hget
        subst hff
        unfold resolveFrame
        split
        · left
          simp [hf0]
        · refine qinv_loopIssue _ _ _ _ _ _ _ ?_ ?_
          · simp [updateDoc, emit, hf0]
          · simp [updateDoc, emit, hp]
  | timer =>
    show QInv (if s.timers = 0 then s
      else processNextSync { s with timers := s.timers - 1 })
    split
    · exact h
    · refine qinv_processNextSync _ ?_
      rcases h with hnil | ⟨f, hf, hp, hc⟩
      · exact Or.inl hnil
      · exact Or.inr ⟨f, hf, hp, hc⟩

/-- Claim C4, amended: as long as no cancel occurs, at most one document
is actively recognized — every reachable state has all in-flight
recognition calls belonging to the worker's single current document —
and enqueueing an already-waiting document while the worker is busy is a
no-op (the wait list is deduplicated); but cancelling the
actively-processing document while its page recognition call is awaited
immediately starts the next queued document and the old run's in-flight
call overlaps the new run (see the counterexample). -/
theorem ocrQueue_single_flight_without_cancel :
    (∀ (docs : List Doc) (acts : List QAction),
      (∀ a ∈ acts, a.isCancel = false) →
      SingleFlight (runQueue (initState docs) acts)) ∧
    (∀ (s : QState) (d : String), s.processingQueue.contains d = true →
      s.isProcessing = true → step (.enqueue d) s = s) := by
  constructor
  · intro docs acts hnc
    have main : ∀ (l : List QAction) (s : QState), QInv s →
        (∀ a ∈ l, a.isCancel = false) → QInv (runQueue s l) := by
      intro l
      induction l with
      | nil => intro s h _; exact h
      | cons a l ih =>
        intro s h hl
        exact ih _ (qinv_step s a (hl a (by simp)) h)
          (fun x hx => hl x (by simp [hx]))
    exact qinv_singleFlight _ (main acts (initState docs) (Or.inl rfl) hnc)
  · intro s d hqueue hproc
    show enqueueAction d s = s
    unfold enqueueAction
    split
    · rfl
    · split
      · rfl
      · split
        · rfl
        · dsimp only
          have hmem : d ∈ s.processingQueue := by simpa using hqueue
          simp [hmem, hproc]

/-- Witness for the amended C4: two back-to-back enqueues keep the
single-flight property, and re-enqueueing the waiting "B" against the
busy state changes nothing. -/
theorem ocrQueue_single_flight_without_cancel_witness :
    SingleFlight (runQueue (initState [docA2, docB1])
      [QAction.enqueue "A", QAction.enqueue "B"]) ∧
    step (.enqueue "B") busyState = busyState := by
  constructor
  · exact ocrQueue_single_flight_without_cancel.1 [docA2, docB1]
      [QAction.enqueue "A", QAction.enqueue "B"] (by decide)
  · exact ocrQueue_single_flight_without_cancel.2 busyState "B" (by decide) rfl

end DocScanPro
